import Mathlib

/-
Shallow embedding of src/Table.py, a Streamlit media-monitoring report tool.

The program has two pipelines over in-memory tables:
  - a Merge Pipeline (lines 140-149): tag each uploaded table with an Entity
    label derived from its filename, then concatenate all tables;
  - a Report Pipeline (lines 171-228): derive seven summary tables from one
    input table by grouping / cross-tabulation, and assemble them into a
    styled workbook (lines 13-122).

Rows are modelled by the three columns the aggregation stage reads
(Journalist, Entity, Publication Name); counts are natural numbers and the
percentage column of the share-of-voice table is a rational number.
Cross-tabulations are modelled as lists of keyed rows whose cells are
association lists from column name to count, exactly mirroring the order of
operations of the source.  Fallible steps (column selection on a table that
may lack the column) return Except values.
-/

namespace Table

/-- A row of the report input table: the columns of the merged spreadsheet
that the aggregation stage of src/Table.py reads. -/
structure Row where
  journalist : String
  entity : String
  pubName : String
deriving DecidableEq, Repr

/-- Helper for pySplit, walking the character list and cutting at each
separator occurrence. -/
def pySplitAux (sep : Char) : List Char → List Char → List String
  | [], acc => [String.mk acc.reverse]
  | c :: cs, acc =>
    if c = sep then String.mk acc.reverse :: pySplitAux sep cs []
    else pySplitAux sep cs (c :: acc)

/-- Python str.split with a one-character separator, as used by
df1.Journalist.str.split at line 188: splitting never drops empty pieces,
and splitting the empty string yields one empty piece. -/
def pySplit (sep : Char) (s : String) : List String :=
  pySplitAux sep s.data []

/-- Position of the last dot of a filename, if any. -/
def lastDotIdx (cs : List Char) : Option Nat :=
  (cs.reverse.findIdx? (· = '.')).map (fun j => cs.length - 1 - j)

/-- Python os.path.splitext applied at line 142, returning the stem: the
extension starts at the last dot, except that a name consisting of leading
dots only (such as .bashrc) has no extension. -/
def splitextStem (cs : List Char) : List Char :=
  match lastDotIdx cs with
  | none => cs
  | some i => if (cs.take i).all (· = '.') then cs else cs.take i

/-- The part of a character list strictly before the first occurrence of the
separator sequence; the whole list when the separator does not occur.  This
is Python s.split(sep)[0] for a multi-character sep. -/
def takeBeforeAux (sep : List Char) : List Char → List Char
  | [] => []
  | c :: cs => if sep.isPrefixOf (c :: cs) then [] else c :: takeBeforeAux sep cs

/-- Lines 142-143: entity_name = os.path.splitext(name)[0].split(" - ")[0],
the filename stem truncated before the first occurrence of " - ". -/
def entityName (fname : String) : String :=
  String.mk (takeBeforeAux " - ".data (splitextStem fname.data))

/-- Lines 145-147: load one uploaded file and add the constant Entity column
to every row.  Row payloads are abstract; the added label is paired with
each payload. -/
def addEntity {α : Type} (file : String × List α) : List (α × String) :=
  file.2.map fun r => (r, entityName file.1)

/-- Line 149: pd.concat of the tagged tables in upload order with
ignore_index=True, preserving row order within each file. -/
def combined_df {α : Type} (files : List (String × List α)) : List (α × String) :=
  files.flatMap addEntity

/-- Numpy round-half-to-even of a rational to an integer, the rounding used
by DataFrame.round. -/
def roundHalfEven (q : ℚ) : ℤ :=
  if q - ⌊q⌋ < 1/2 then ⌊q⌋
  else if 1/2 < q - ⌊q⌋ then ⌊q⌋ + 1
  else if ⌊q⌋ % 2 = 0 then ⌊q⌋ else ⌊q⌋ + 1

/-- Rounding to two decimal places, .round(2) at line 177. -/
def round2 (q : ℚ) : ℚ :=
  (roundHalfEven (q * 100) : ℚ) / 100

/-- The non-margin columns of the crosstab at line 173.  The columns argument
is the scalar string News Count, broadcast over the rows, so the observed
column values are one copy of News Count per input row; the column labels of
the pivot are the distinct observed values.  In particular a table with zero
rows observes no values and the pivot has no News Count column. -/
def sovColumns (rows : List Row) : List String :=
  (rows.map fun _ => "News Count").dedup

/-- Count of input rows carrying a given Entity value. -/
def newsCount (rows : List Row) (e : String) : ℕ :=
  (rows.map Row.entity).count e

/-- One row of the Entity share-of-voice table: Entity value, News Count,
and the percentage column added at lines 177-178. -/
structure SOVRow where
  entity : String
  cnt : ℕ
  pct : ℚ
deriving DecidableEq, Repr

/-- Lines 173-179, Entity_SOV: cross-tabulate Entity against the broadcast
News Count column with a Total margin row, drop the margin column, then add
the percentage column: each entity gets count / (sum of non-Total counts)
* 100 rounded to two decimals, and the Total row gets exactly 100.
Selecting the News Count column of the size computation at line 176 fails
with a KeyError when the pivot has no such column, which happens exactly on
an empty input table. -/
def Entity_SOV (rows : List Row) : Except String (List SOVRow × SOVRow) :=
  if "News Count" ∈ sovColumns rows then
    let ents := (rows.map Row.entity).dedup
    let s : ℕ := (ents.map (newsCount rows)).sum
    .ok (ents.map fun e => ⟨e, newsCount rows e, round2 ((newsCount rows e : ℚ) / s * 100)⟩,
         ⟨"Total", rows.length, 100⟩)
  else
    .error "KeyError: News Count"

/-- Lines 188-189: df1.Journalist is split on commas and the frame is
exploded, one output row per individual name, all other fields copied. -/
def explode (rows : List Row) : List Row :=
  rows.flatMap fun r => (pySplit ',' r.journalist).map fun j => { r with journalist := j }

/-- A cell of the Journalist x Entity cross-tabulation: the number of rows
with the given Journalist and Entity values. -/
def count2 (rows : List Row) (j e : String) : ℕ :=
  (rows.filter fun r => r.journalist == j && r.entity == e).length

/-- The entity columns of a cross-tabulation: the distinct Entity values of
the input rows. -/
def entityCols (rows : List Row) : List String :=
  (rows.map Row.entity).dedup

/-- A row of the Journalist Table: the journalist name, the joined
Publication Name, and one cell per entity column (an association list from
column name to count).  The Total column of the table is the sum of the
numeric entity cells and is recovered by JRow.total. -/
structure JRow where
  journalist : String
  pubName : String
  cells : List (String × ℕ)
deriving DecidableEq, Repr

/-- Line 196: the Total column value of a row, the sum of its numeric entity
cells. -/
def JRow.total (r : JRow) : ℕ :=
  (r.cells.map Prod.snd).sum

/-- Value of a row at a named column, 0 when the column is absent. -/
def cellVal (r : JRow) (e : String) : ℕ :=
  ((r.cells.find? fun p => p.1 == e).map Prod.snd).getD 0

/-- Column sum of a named column over a list of table rows. -/
def colSum (l : List JRow) (e : String) : ℕ :=
  (l.map fun r => cellVal r e).sum

/-- Column sum of the Total column over a list of table rows. -/
def totalColSum (l : List JRow) : ℕ :=
  (l.map JRow.total).sum

/-- Lines 192-194: the merge with df1[[Journalist, Publication Name]]
followed by drop_duplicates(keep=first) associates to each journalist the
Publication Name of the first exploded row carrying that journalist. -/
def firstPub (rows : List Row) (j : String) : String :=
  (((rows.filter fun r => r.journalist == j).head?).map Row.pubName).getD ""

/-- Lines 190-196, Journalist_Table: one row per distinct journalist of the
exploded frame, with the per-entity cross-tab counts and the joined first
Publication Name. -/
def Journalist_Table (rows : List Row) : List JRow :=
  ((rows.map Row.journalist).dedup).map fun j =>
    ⟨j, firstPub rows j, (entityCols rows).map fun e => (e, count2 rows j e)⟩

/-- Line 197: sort_values(Total, ascending=False). -/
def Jour_sorted (rows : List Row) : List JRow :=
  (Journalist_Table rows).insertionSort fun a b => b.total ≤ a.total

/-- Lines 198-200: the rows named Bureau News are pulled out of the sorted
table and re-appended after all the other rows. -/
def Jour_data (rows : List Row) : List JRow :=
  ((Jour_sorted rows).filter fun r => r.journalist != "Bureau News") ++
    ((Jour_sorted rows).filter fun r => r.journalist == "Bureau News")

/-- Line 202: the GrandTotal row, summing every numeric column over the rows
present at that point, which are exactly the data rows.  Its value in the
Total column equals the sum of its entity cells, so the uniform JRow
representation is exact. -/
def Jour_grandTotal (rows : List Row) : JRow :=
  ⟨"GrandTotal", "", (entityCols rows).map fun e => (e, colSum (Jour_data rows) e)⟩

/-- Line 206: the Total row, summing every numeric column over the rows
present at that point; since the GrandTotal row has already been appended at
line 202, the sum ranges over the data rows and the GrandTotal row. -/
def Jour_totalRow (rows : List Row) : JRow :=
  ⟨"Total", "",
    (entityCols rows).map fun e => (e, colSum (Jour_data rows ++ [Jour_grandTotal rows]) e)⟩

/-- Lines 197-208, Jour_table: the reordered data rows followed by the
GrandTotal row and then the Total row. -/
def Jour_table (rows : List Row) : List JRow :=
  Jour_data rows ++ [Jour_grandTotal rows, Jour_totalRow rows]

/-- Python str.startswith, modelled on the character lists. -/
def strStarts (s patt : String) : Bool :=
  patt.data.isPrefixOf s.data

/-- A row of the Journalist x Entity cross-tab with margins of lines 215 and
223: the key (a journalist name, or Total for the margin row) and one cell
per entity column.  The Total margin column equals the sum of the entity
cells on every row, including the margin row, and is recovered by
CtRow.total. -/
structure CtRow where
  key : String
  cells : List (String × ℕ)
deriving DecidableEq, Repr

/-- The Total margin column value of a cross-tab row. -/
def CtRow.total (r : CtRow) : ℕ :=
  (r.cells.map Prod.snd).sum

/-- Value of a cross-tab row at a named column, 0 when absent. -/
def cellValC (r : CtRow) (e : String) : ℕ :=
  ((r.cells.find? fun p => p.1 == e).map Prod.snd).getD 0

/-- Row sum over a set of named columns, crosstab[cols].sum(axis=1). -/
def rowSumOver (r : CtRow) (cols : List String) : ℕ :=
  (cols.map (cellValC r)).sum

/-- Lines 215-216 and 223-224: the Journalist x Entity cross-tab of the
unexploded frame with a Total margin row, flattened by to_records so the
index becomes a Journalist column.  The margin row counts all rows per
entity column. -/
def crosstab (rows : List Row) : List CtRow :=
  (((rows.map Row.journalist).dedup).map fun j =>
    CtRow.mk j ((entityCols rows).map fun e => (e, count2 rows j e)))
  ++ [CtRow.mk "Total" ((entityCols rows).map fun e => (e, newsCount rows e))]

/-- The column labels of the flattened cross-tab: the Journalist column from
the index, the entity columns, and the Total margin column. -/
def allCols (rows : List Row) : List String :=
  "Journalist" :: entityCols rows ++ ["Total"]

/-- Line 217: the columns whose name starts with Client-. -/
def client_cols (rows : List Row) : List String :=
  (allCols rows).filter fun c => strStarts c "Client-"

/-- Line 218: the columns other than Journalist and Total whose name does
not start with Client-. -/
def competitor_cols (rows : List Row) : List String :=
  (allCols rows).filter fun c => !(c == "Journalist") && !(c == "Total") && !(strStarts c "Client-")

/-- Line 219: nonzero client-column row sum; the literal False when there
are no client columns. -/
def mask_client_positive (rows : List Row) (r : CtRow) : Bool :=
  if client_cols rows = [] then false else rowSumOver r (client_cols rows) != 0

/-- Line 220: zero competitor-column row sum; the literal True when there
are no competitor columns. -/
def mask_competitors_zero (rows : List Row) (r : CtRow) : Bool :=
  if competitor_cols rows = [] then true else rowSumOver r (competitor_cols rows) == 0

/-- Line 225: zero client-column row sum; the literal True when there are no
client columns. -/
def mask_client_zero (rows : List Row) (r : CtRow) : Bool :=
  if client_cols rows = [] then true else rowSumOver r (client_cols rows) == 0

/-- Line 226: nonzero competitor-column row sum; the literal False when
there are no competitor columns. -/
def mask_competitor_positive (rows : List Row) (r : CtRow) : Bool :=
  if competitor_cols rows = [] then false else rowSumOver r (competitor_cols rows) != 0

/-- Lines 221-222, j_abt_client: the cross-tab rows with positive client sum
and zero competitor sum, sorted descending by the Total column. -/
def j_abt_client (rows : List Row) : List CtRow :=
  ((crosstab rows).filter fun r => mask_client_positive rows r && mask_competitors_zero rows r
    ).insertionSort fun a b => b.total ≤ a.total

/-- Lines 225-228, j_abt_comp: the cross-tab rows with zero client sum and
positive competitor sum, sorted descending by the Total column. -/
def j_abt_comp (rows : List Row) : List CtRow :=
  ((crosstab rows).filter fun r => mask_client_zero rows r && mask_competitor_positive rows r
    ).insertionSort fun a b => b.total ≤ a.total

/-- Placement of one table block on the worksheet: the merged title row, the
width of the merge, the header row and the first data row. -/
structure Block where
  titleRow : ℕ
  mergeWidth : ℕ
  headerRow : ℕ
  dataStartRow : ℕ
deriving DecidableEq, Repr

/-- Lines 107-115 of multiple_dfs: for each table of (row count, column
count), add_styling_to_worksheet writes the title at the cursor merged over
the column count (lines 45-55), the header row directly below (line 58) and
the data rows below that (line 72); the cursor then advances by the row
count plus 2, then by 2 more blank rows. -/
def layoutAux : List (ℕ × ℕ) → ℕ → List Block
  | [], _ => []
  | t :: rest, cur => ⟨cur, t.2, cur + 1, cur + 2⟩ :: layoutAux rest (cur + (t.1 + 2) + 2)

/-- Lines 89-122, multiple_dfs as a layout function: the cursor starts at
row 1; add_entity_info writes one cell per line of the entity info block but
never moves the cursor, which is then advanced by the fixed offset 6 at line
104 whatever the number of header lines; the table blocks follow. -/
def multiple_dfs (entityInfo : List String) (tables : List (ℕ × ℕ)) : List Block :=
  layoutAux tables (1 + 6)

/-- Claim C3 counterexample: on the empty input table the Report Pipeline
does raise, refuting the claim that no error is raised: the Entity SOV step
fails before any Total or GrandTotal row is produced. -/
theorem entity_sov_empty_counterexample : (Entity_SOV []).isOk = false := by
  rfl

/-- Claim C3, amended: on an empty input table the Entity SOV step fails
with a KeyError, because the cross-tab of zero rows observes no column
values and therefore has no News Count column to select at line 176; the
zero-valued Total and GrandTotal rows are never produced. -/
theorem entity_sov_empty_amended : Entity_SOV [] = .error "KeyError: News Count" := by
  rfl

/-- Claim C4: every row whose Journalist field contains comma-separated
names is expanded into one row per individual name with all other fields
copied unchanged, and on the input [(Journalist J1,J2, Entity Client-A)]
the Journalist x Entity pivot counts for J1 and for J2 against Client-A
each equal 1. -/
theorem explode_semantics (rows : List Row) (r : Row) (hr : r ∈ rows)
    (nm : String) (hn : nm ∈ pySplit ',' r.journalist) :
    { r with journalist := nm } ∈ explode rows ∧
    count2 (explode [Row.mk "J1,J2" "Client-A" "P1"]) "J1" "Client-A" = 1 ∧
    count2 (explode [Row.mk "J1,J2" "Client-A" "P1"]) "J2" "Client-A" = 1 := by
  refine ⟨?_, by decide, by decide⟩
  unfold explode
  exact List.mem_flatMap.mpr ⟨r, hr, List.mem_map.mpr ⟨nm, hn, rfl⟩⟩

theorem explode_semantics_witness :
    (Row.mk "J1,J2" "Client-A" "P1" ∈ [Row.mk "J1,J2" "Client-A" "P1"] ∧
      "J1" ∈ pySplit ',' "J1,J2") ∧
    Row.mk "J1" "Client-A" "P1" ∈ explode [Row.mk "J1,J2" "Client-A" "P1"] ∧
    count2 (explode [Row.mk "J1,J2" "Client-A" "P1"]) "J1" "Client-A" = 1 ∧
    count2 (explode [Row.mk "J1,J2" "Client-A" "P1"]) "J2" "Client-A" = 1 :=
  ⟨⟨by decide, by decide⟩,
    explode_semantics [Row.mk "J1,J2" "Client-A" "P1"] (Row.mk "J1,J2" "Client-A" "P1")
      (by decide) "J1" (by decide)⟩

/-- Claim C8: for a non-empty upload list, the merged output is the ordered
concatenation of the per-file tagged tables, its row count is the sum of the
input row counts, every output row carries the Entity label derived from its
source filename, and two single-row files named A - x.xlsx and B - y.xlsx
yield the Entity column [A, B]. -/
theorem combined_df_spec {α : Type} (files : List (String × List α)) (h : files ≠ [])
    (a b : α) :
    combined_df files = (files.map fun f => f.2.map fun r => (r, entityName f.1)).flatten ∧
    (combined_df files).length = (files.map fun f => f.2.length).sum ∧
    (∀ p ∈ combined_df files, ∃ f ∈ files, p.1 ∈ f.2 ∧ p.2 = entityName f.1) ∧
    (combined_df [("A - x.xlsx", [a]), ("B - y.xlsx", [b])]).map Prod.snd = ["A", "B"] := by
  refine ⟨?_, ?_, ?_, ?_⟩
  · rw [combined_df, List.flatMap_def]
    exact congrArg List.flatten (List.map_congr_left fun f _ => rfl)
  · rw [combined_df, List.length_flatMap]
    congr 1
    apply List.map_congr_left
    intro f _
    simp [addEntity]
  · intro p hp
    obtain ⟨f, hf, hpf⟩ := List.mem_flatMap.mp hp
    obtain ⟨r, hr, rfl⟩ := List.mem_map.mp hpf
    exact ⟨f, hf, hr, rfl⟩
  · simp [combined_df, addEntity]
    exact ⟨by decide, by decide⟩

theorem combined_df_spec_witness :
    ([(("A - x.xlsx" : String), [(1 : ℕ)]), ("B - y.xlsx", [2])] ≠ []) ∧
    (combined_df [(("A - x.xlsx" : String), [(1 : ℕ)]), ("B - y.xlsx", [2])]).length =
      ([(("A - x.xlsx" : String), [(1 : ℕ)]), ("B - y.xlsx", [2])].map fun f => f.2.length).sum ∧
    (combined_df [(("A - x.xlsx" : String), [(1 : ℕ)]), ("B - y.xlsx", [2])]).map Prod.snd =
      ["A", "B"] := by
  have h := combined_df_spec [(("A - x.xlsx" : String), [(1 : ℕ)]), ("B - y.xlsx", [2])]
    (by decide) 1 2
  exact ⟨by decide, h.2.1, h.2.2.2⟩

/-- Claim C10: the client-only and competitor-only selections are made from
a cross-tab that still contains its Total margins row, and on an input whose
only nonzero entity column is Client-prefixed the row keyed Total satisfies
the client-positive and competitor-zero masks and appears as a data row of
the client-only table. -/
theorem margin_row_in_client_table :
    "Total" ∈ (crosstab [Row.mk "J1" "Client-A" "P1"]).map CtRow.key ∧
    "Total" ∈ (j_abt_client [Row.mk "J1" "Client-A" "P1"]).map CtRow.key := by
  decide

theorem layoutAux_length (ts : List (ℕ × ℕ)) (cur : ℕ) :
    (layoutAux ts cur).length = ts.length := by
  induction ts generalizing cur with
  | nil => rfl
  | cons t rest ih => simp [layoutAux, ih]

theorem layoutAux_shape (ts : List (ℕ × ℕ)) (cur : ℕ) :
    ∀ b ∈ layoutAux ts cur, b.headerRow = b.titleRow + 1 ∧ b.dataStartRow = b.titleRow + 2 := by
  induction ts generalizing cur with
  | nil => simp [layoutAux]
  | cons t rest ih =>
    intro b hb
    rw [layoutAux] at hb
    rcases List.mem_cons.mp hb with hb | hb
    · subst hb; exact ⟨rfl, rfl⟩
    · exact ih _ b hb

theorem layoutAux_widths (ts : List (ℕ × ℕ)) (cur : ℕ) :
    (layoutAux ts cur).map Block.mergeWidth = ts.map Prod.snd := by
  induction ts generalizing cur with
  | nil => rfl
  | cons t rest ih => simp [layoutAux, ih]

theorem layoutAux_head (ts : List (ℕ × ℕ)) (cur : ℕ) (b0 : Block)
    (h : (layoutAux ts cur)[0]? = some b0) : b0.titleRow = cur := by
  cases ts with
  | nil => simp [layoutAux] at h
  | cons t rest =>
    rw [layoutAux] at h
    simp at h
    subst h
    rfl

theorem layoutAux_succ (ts : List (ℕ × ℕ)) : ∀ (cur i : ℕ) (bi bi1 : Block) (t : ℕ × ℕ),
    (layoutAux ts cur)[i]? = some bi → (layoutAux ts cur)[i + 1]? = some bi1 →
    ts[i]? = some t → bi1.titleRow = bi.titleRow + (t.1 + 2) + 2 := by
  induction ts with
  | nil =>
    intro cur i bi bi1 t h1 _ _
    simp [layoutAux] at h1
  | cons t0 rest ih =>
    intro cur i bi bi1 t h1 h2 h3
    cases i with
    | zero =>
      rw [layoutAux] at h1 h2
      simp at h1 h2 h3
      subst h1; subst h3
      have := layoutAux_head rest _ bi1 h2
      simp [this]
    | succ n =>
      rw [layoutAux] at h1 h2
      simp at h1 h2 h3
      exact ih _ n bi bi1 t h1 h2 h3

/-- Claim C9: the write cursor is advanced past the header block by the
fixed offset 6 whatever the number of header lines, so the first title row
is row 7 regardless of the entity-info text; each block merges its title
across exactly the table column count, puts the header row directly below
the title and the data rows directly below that; and each following title
row starts exactly (row count + 2) + 2 rows after the current one, so the
layout is a function of the table sizes and their order alone. -/
theorem multiple_dfs_layout (info info2 : List String) (ts : List (ℕ × ℕ)) (i : ℕ)
    (bi bi1 : Block) (t : ℕ × ℕ)
    (h1 : (multiple_dfs info ts)[i]? = some bi)
    (h2 : (multiple_dfs info ts)[i + 1]? = some bi1)
    (h3 : ts[i]? = some t) :
    multiple_dfs info ts = multiple_dfs info2 ts ∧
    (multiple_dfs info ts).length = ts.length ∧
    (∀ b0, (multiple_dfs info ts)[0]? = some b0 → b0.titleRow = 7) ∧
    (∀ b ∈ multiple_dfs info ts, b.headerRow = b.titleRow + 1 ∧ b.dataStartRow = b.titleRow + 2) ∧
    (multiple_dfs info ts).map Block.mergeWidth = ts.map Prod.snd ∧
    bi1.titleRow = bi.titleRow + (t.1 + 2) + 2 := by
  refine ⟨rfl, layoutAux_length ts 7, ?_, layoutAux_shape ts 7, layoutAux_widths ts 7,
    layoutAux_succ ts 7 i bi bi1 t h1 h2 h3⟩
  intro b0 h0
  exact layoutAux_head ts 7 b0 h0

theorem multiple_dfs_layout_witness :
    (multiple_dfs ["Entity:"] [(3, 2), (5, 4)])[0]? = some (Block.mk 7 2 8 9) ∧
    (multiple_dfs ["Entity:"] [(3, 2), (5, 4)])[1]? = some (Block.mk 14 4 15 16) ∧
    multiple_dfs ["Entity:"] [(3, 2), (5, 4)] = multiple_dfs [] [(3, 2), (5, 4)] ∧
    (multiple_dfs ["Entity:"] [(3, 2), (5, 4)]).length = 2 ∧
    (Block.mk 14 4 15 16).titleRow = (Block.mk 7 2 8 9).titleRow + (3 + 2) + 2 :=
  have h := multiple_dfs_layout ["Entity:"] [] [(3, 2), (5, 4)] 0
    (Block.mk 7 2 8 9) (Block.mk 14 4 15 16) (3, 2) (by decide) (by decide) (by decide)
  ⟨by decide, by decide, h.1, h.2.1, h.2.2.2.2.2⟩

/-- Claim C5: whenever some journalist is named exactly Bureau News, the
last data row of the Journalist Table is the Bureau News row, whatever its
Total value and whatever order the descending sort produced, and the
GrandTotal and Total rows are appended after the data rows. -/
theorem bureau_news_last (rows : List Row) (h : "Bureau News" ∈ rows.map Row.journalist) :
    (∃ r, (Jour_data rows).getLast? = some r ∧ r.journalist = "Bureau News") ∧
    Jour_table rows = Jour_data rows ++ [Jour_grandTotal rows, Jour_totalRow rows] := by
  refine ⟨?_, rfl⟩
  have hd : "Bureau News" ∈ (rows.map Row.journalist).dedup := List.mem_dedup.mpr h
  have h1 : (⟨"Bureau News", firstPub rows "Bureau News",
      (entityCols rows).map fun e => (e, count2 rows "Bureau News" e)⟩ : JRow)
      ∈ Journalist_Table rows :=
    List.mem_map.mpr ⟨"Bureau News", hd, rfl⟩
  have h2 := (List.mem_insertionSort (fun a b => JRow.total b ≤ JRow.total a)).mpr h1
  have h3 : (⟨"Bureau News", firstPub rows "Bureau News",
      (entityCols rows).map fun e => (e, count2 rows "Bureau News" e)⟩ : JRow)
      ∈ (Jour_sorted rows).filter fun r => r.journalist == "Bureau News" :=
    List.mem_filter.mpr ⟨h2, by simp⟩
  have hne := List.ne_nil_of_mem h3
  rw [Jour_data, List.getLast?_append_of_ne_nil _ hne]
  refine ⟨((Jour_sorted rows).filter fun r => r.journalist == "Bureau News").getLast hne,
    List.getLast?_eq_getLast _ hne, ?_⟩
  have hmem := List.getLast_mem hne
  have := (List.mem_filter.mp hmem).2
  exact eq_of_beq this

theorem bureau_news_last_witness :
    "Bureau News" ∈ ([Row.mk "Bureau News" "A" "P", Row.mk "Bureau News" "A" "P2",
      Row.mk "X" "A" "P3"].map Row.journalist) ∧
    ∃ r, (Jour_data [Row.mk "Bureau News" "A" "P", Row.mk "Bureau News" "A" "P2",
      Row.mk "X" "A" "P3"]).getLast? = some r ∧ r.journalist = "Bureau News" :=
  ⟨by decide,
    (bureau_news_last [Row.mk "Bureau News" "A" "P", Row.mk "Bureau News" "A" "P2",
      Row.mk "X" "A" "P3"] (by decide)).1⟩

theorem cellValC_map (f : String → ℕ) (k : String) : ∀ (cols : List String) (e : String),
    e ∈ cols → cellValC ⟨k, cols.map fun c => (c, f c)⟩ e = f e := by
  intro cols
  induction cols with
  | nil => intro e he; exact absurd he (List.not_mem_nil e)
  | cons c cs ih =>
    intro e he
    rw [cellValC]
    simp only [List.map_cons]
    cases hq : (c == e) with
    | true =>
      have hc : c = e := eq_of_beq hq
      subst hc
      simp [List.find?]
    | false =>
      have he2 : e ∈ cs := by
        rcases List.mem_cons.mp he with rfl | h2
        · simp at hq
        · exact h2
      have hrec := ih e he2
      rw [cellValC] at hrec
      simpa [List.find?, hq] using hrec

theorem mem_crosstab_cases (rows : List Row) (r : CtRow) (h : r ∈ crosstab rows) :
    (∃ j, j ∈ (rows.map Row.journalist).dedup ∧
      r = CtRow.mk j ((entityCols rows).map fun e => (e, count2 rows j e))) ∨
    r = CtRow.mk "Total" ((entityCols rows).map fun e => (e, newsCount rows e)) := by
  rw [crosstab] at h
  rcases List.mem_append.mp h with h | h
  · obtain ⟨j, hj, rfl⟩ := List.mem_map.mp h
    exact Or.inl ⟨j, hj, rfl⟩
  · right
    simpa using h

theorem client_cols_sub (rows : List Row) (c : String) (h : c ∈ client_cols rows) :
    c ∈ entityCols rows := by
  rw [client_cols] at h
  obtain ⟨hmem, hpred⟩ := List.mem_filter.mp h
  rw [allCols] at hmem
  rcases List.mem_cons.mp hmem with rfl | hmem
  · exact absurd hpred (by decide)
  · rcases List.mem_append.mp hmem with hmem | hmem
    · exact hmem
    · have : c = "Total" := by simpa using hmem
      subst this
      exact absurd hpred (by decide)

theorem competitor_cols_sub (rows : List Row) (c : String) (h : c ∈ competitor_cols rows) :
    c ∈ entityCols rows := by
  rw [competitor_cols] at h
  obtain ⟨hmem, hpred⟩ := List.mem_filter.mp h
  simp only [Bool.and_eq_true] at hpred
  rw [allCols] at hmem
  rcases List.mem_cons.mp hmem with rfl | hmem
  · simp at hpred
  · rcases List.mem_append.mp hmem with hmem | hmem
    · exact hmem
    · have : c = "Total" := by simpa using hmem
      subst this
      simp at hpred

theorem newsCount_pos (rows : List Row) (e : String) (h : e ∈ entityCols rows) :
    0 < newsCount rows e := by
  rw [entityCols] at h
  rw [newsCount]
  exact List.count_pos_iff.mpr (List.mem_dedup.mp h)

theorem margin_rowSum_pos (rows : List Row) (cols : List String) (hne : cols ≠ [])
    (hsub : ∀ c ∈ cols, c ∈ entityCols rows) :
    rowSumOver (CtRow.mk "Total" ((entityCols rows).map fun e => (e, newsCount rows e))) cols ≠ 0 := by
  cases cols with
  | nil => exact absurd rfl hne
  | cons c cs =>
    rw [rowSumOver]
    simp only [List.map_cons, List.sum_cons]
    have h1 : cellValC (CtRow.mk "Total"
        ((entityCols rows).map fun e => (e, newsCount rows e))) c = newsCount rows c :=
      cellValC_map (newsCount rows) "Total" (entityCols rows) c (hsub c (List.mem_cons_self c cs))
    have h2 := newsCount_pos rows c (hsub c (List.mem_cons_self c cs))
    omega

/-- Claim C6: when the cross-tab has at least one Client- column and at
least one competitor column, no journalist key appears both in the
journalist-writing-on-Client-only table and in the
journalist-writing-on-Competitor-only table. -/
theorem client_competitor_disjoint (rows : List Row)
    (hc : client_cols rows ≠ []) (hk : competitor_cols rows ≠ [])
    (s : String) (h1 : s ∈ (j_abt_client rows).map CtRow.key) :
    s ∉ (j_abt_comp rows).map CtRow.key := by
  intro h2
  obtain ⟨r1, hr1, hk1⟩ := List.mem_map.mp h1
  obtain ⟨r2, hr2, hk2⟩ := List.mem_map.mp h2
  rw [j_abt_client] at hr1
  rw [j_abt_comp] at hr2
  obtain ⟨hm1, hmask1⟩ := List.mem_filter.mp ((List.mem_insertionSort _).mp hr1)
  obtain ⟨hm2, hmask2⟩ := List.mem_filter.mp ((List.mem_insertionSort _).mp hr2)
  rw [Bool.and_eq_true] at hmask1 hmask2
  have e1 : rowSumOver r1 (client_cols rows) ≠ 0 := by
    have := hmask1.1
    rw [mask_client_positive, if_neg hc] at this
    simpa using this
  have z1 : rowSumOver r1 (competitor_cols rows) = 0 := by
    have := hmask1.2
    rw [mask_competitors_zero, if_neg hk] at this
    simpa using this
  have z2 : rowSumOver r2 (client_cols rows) = 0 := by
    have := hmask2.1
    rw [mask_client_zero, if_neg hc] at this
    simpa using this
  rcases mem_crosstab_cases rows r1 hm1 with ⟨j1, _, rfl⟩ | rfl
  · rcases mem_crosstab_cases rows r2 hm2 with ⟨j2, _, rfl⟩ | rfl
    · have : j1 = j2 := by
        have hx1 : j1 = s := hk1
        have hx2 : j2 = s := hk2
        rw [hx1, hx2]
      subst this
      exact e1 z2
    · exact margin_rowSum_pos rows (client_cols rows) hc (client_cols_sub rows) z2
  · exact margin_rowSum_pos rows (competitor_cols rows) hk (competitor_cols_sub rows) z1

theorem client_competitor_disjoint_witness :
    (client_cols [Row.mk "J1" "Client-A" "P", Row.mk "J2" "B" "P"] ≠ [] ∧
      competitor_cols [Row.mk "J1" "Client-A" "P", Row.mk "J2" "B" "P"] ≠ [] ∧
      "J1" ∈ (j_abt_client [Row.mk "J1" "Client-A" "P", Row.mk "J2" "B" "P"]).map CtRow.key) ∧
    "J1" ∉ (j_abt_comp [Row.mk "J1" "Client-A" "P", Row.mk "J2" "B" "P"]).map CtRow.key :=
  ⟨⟨by decide, by decide, by decide⟩,
    client_competitor_disjoint [Row.mk "J1" "Client-A" "P", Row.mk "J2" "B" "P"]
      (by decide) (by decide) "J1" (by decide)⟩

/-- Claim C7: when no cross-tab column starts with Client-, the client-only
table is empty (its mask is the literal False), while the competitor-only
table holds exactly the cross-tab rows with a nonzero competitor-column sum
(the client-zero mask is the literal True) — the two edge cases are
asymmetric by construction. -/
theorem no_client_cols_asymmetry (rows : List Row)
    (hE : ∀ e ∈ entityCols rows, strStarts e "Client-" = false) :
    j_abt_client rows = [] ∧
    ∀ r, r ∈ j_abt_comp rows ↔ r ∈ crosstab rows ∧ rowSumOver r (competitor_cols rows) ≠ 0 := by
  have hcc : client_cols rows = [] := by
    rw [client_cols]
    apply List.filter_eq_nil_iff.mpr
    intro c hcmem
    rw [allCols] at hcmem
    rcases List.mem_cons.mp hcmem with rfl | hcm
    · decide
    · rcases List.mem_append.mp hcm with hce | hct
      · simp [hE c hce]
      · have : c = "Total" := by simpa using hct
        subst this
        decide
  constructor
  · rw [j_abt_client]
    have hnil : ((crosstab rows).filter
        fun r => mask_client_positive rows r && mask_competitors_zero rows r) = [] := by
      apply List.filter_eq_nil_iff.mpr
      intro r _
      rw [mask_client_positive, if_pos hcc]
      simp
    rw [hnil]
    rfl
  · intro r
    rw [j_abt_comp, List.mem_insertionSort, List.mem_filter, Bool.and_eq_true]
    constructor
    · rintro ⟨hmem, _, hmask⟩
      rw [mask_competitor_positive] at hmask
      by_cases hkk : competitor_cols rows = []
      · rw [if_pos hkk] at hmask
        exact absurd hmask (by simp)
      · rw [if_neg hkk] at hmask
        exact ⟨hmem, by simpa using hmask⟩
    · rintro ⟨hmem, hne⟩
      have hkk : competitor_cols rows ≠ [] := by
        intro h0
        apply hne
        rw [h0]
        rfl
      refine ⟨hmem, ?_, ?_⟩
      · rw [mask_client_zero, if_pos hcc]
      · rw [mask_competitor_positive, if_neg hkk]
        simpa using hne

theorem no_client_cols_asymmetry_witness :
    (∀ e ∈ entityCols [Row.mk "J1" "B" "P"], strStarts e "Client-" = false) ∧
    j_abt_client [Row.mk "J1" "B" "P"] = [] ∧
    (CtRow.mk "J1" [("B", 1)] ∈ j_abt_comp [Row.mk "J1" "B" "P"] ↔
      CtRow.mk "J1" [("B", 1)] ∈ crosstab [Row.mk "J1" "B" "P"] ∧
      rowSumOver (CtRow.mk "J1" [("B", 1)])
        (competitor_cols [Row.mk "J1" "B" "P"]) ≠ 0) :=
  have h := no_client_cols_asymmetry [Row.mk "J1" "B" "P"] (by decide)
  ⟨by decide, h.1, h.2 (CtRow.mk "J1" [("B", 1)])⟩

theorem cellVal_map (f : String → ℕ) (j p : String) (cols : List String) (e : String)
    (he : e ∈ cols) :
    cellVal ⟨j, p, cols.map fun c => (c, f c)⟩ e = f e :=
  cellValC_map f j cols e he

theorem sum_map_zero_nat {α : Type} (l : List α) : (l.map fun _ => (0 : ℕ)).sum = 0 := by
  induction l with
  | nil => rfl
  | cons a l ih => simp [ih]

theorem sum_map_add_nat {α : Type} (l : List α) (f g : α → ℕ) :
    (l.map fun x => f x + g x).sum = (l.map f).sum + (l.map g).sum := by
  induction l with
  | nil => rfl
  | cons a l ih =>
    simp only [List.map_cons, List.sum_cons, ih]
    omega

theorem colSum_append (l1 l2 : List JRow) (e : String) :
    colSum (l1 ++ l2) e = colSum l1 e + colSum l2 e := by
  simp [colSum, List.sum_append]

theorem sum_cellVal_eq_total (cols : List String) (r : JRow) (f : String → ℕ)
    (hr : r.cells = cols.map fun e => (e, f e)) :
    (cols.map fun e => cellVal r e).sum = r.total := by
  rw [JRow.total, hr, List.map_map]
  apply congrArg List.sum
  apply List.map_congr_left
  intro e he
  have h1 : cellVal r e = f e := by
    cases r with
    | mk j p cls =>
      simp only at hr
      subst hr
      exact cellVal_map f j p cols e he
  simpa using h1

theorem sum_colSum_eq_totalColSum (cols : List String) (l : List JRow)
    (hl : ∀ r ∈ l, ∃ f : String → ℕ, r.cells = cols.map fun e => (e, f e)) :
    (cols.map fun e => colSum l e).sum = totalColSum l := by
  induction l with
  | nil =>
    simp only [colSum, totalColSum, List.map_nil, List.sum_nil]
    exact sum_map_zero_nat cols
  | cons r l ih =>
    obtain ⟨f, hf⟩ := hl r (List.mem_cons_self r l)
    have hl2 : ∀ x ∈ l, ∃ f : String → ℕ, x.cells = cols.map fun e => (e, f e) :=
      fun x hx => hl x (List.mem_cons_of_mem r hx)
    calc (cols.map fun e => colSum (r :: l) e).sum
        = (cols.map fun e => cellVal r e + colSum l e).sum := by
          simp [colSum]
      _ = (cols.map fun e => cellVal r e).sum + (cols.map fun e => colSum l e).sum :=
          sum_map_add_nat cols _ _
      _ = r.total + totalColSum l := by
          rw [sum_cellVal_eq_total cols r f hf, ih hl2]
      _ = totalColSum (r :: l) := by
          simp [totalColSum]

theorem jour_sorted_shape (rows : List Row) (r : JRow) (h : r ∈ Jour_sorted rows) :
    r.cells = (entityCols rows).map fun e => (e, count2 rows r.journalist e) := by
  have h1 := (List.mem_insertionSort (fun a b => JRow.total b ≤ JRow.total a)).mp h
  rw [Journalist_Table] at h1
  obtain ⟨j, _, rfl⟩ := List.mem_map.mp h1
  rfl

theorem jour_data_shape (rows : List Row) (r : JRow) (h : r ∈ Jour_data rows) :
    r.cells = (entityCols rows).map fun e => (e, count2 rows r.journalist e) := by
  rw [Jour_data] at h
  rcases List.mem_append.mp h with h | h
  · exact jour_sorted_shape rows r (List.mem_filter.mp h).1
  · exact jour_sorted_shape rows r (List.mem_filter.mp h).1

/-- Claim C1 counterexample: on the single exploded row (Journalist J1,
Entity Client-A) the GrandTotal row holds the column sum 1 but the Total
row holds 2, because the Total row is computed after the GrandTotal row has
been appended and therefore sums it too; the two rows are not equal, so
they are not duplicates both holding the data-column sum. -/
theorem jour_total_row_counterexample :
    cellVal (Jour_grandTotal (explode [Row.mk "J1" "Client-A" "P1"])) "Client-A" = 1 ∧
    cellVal (Jour_totalRow (explode [Row.mk "J1" "Client-A" "P1"])) "Client-A" = 2 ∧
    cellVal (Jour_totalRow (explode [Row.mk "J1" "Client-A" "P1"])) "Client-A" ≠
      cellVal (Jour_grandTotal (explode [Row.mk "J1" "Client-A" "P1"])) "Client-A" := by
  refine ⟨by decide, by decide, by decide⟩

/-- Claim C1, amended: the GrandTotal row appended first sums every numeric
column over the data rows; the Total row appended afterwards sums each
numeric column over the data rows plus the already-appended GrandTotal row,
so each of its values is twice the data-row column sum (the two rows agree
only where the column sum is zero).  This holds both for the entity columns
and for the Total column. -/
theorem jour_total_row_amended (rows : List Row) (e : String) (he : e ∈ entityCols rows) :
    cellVal (Jour_grandTotal rows) e = colSum (Jour_data rows) e ∧
    cellVal (Jour_totalRow rows) e = 2 * colSum (Jour_data rows) e ∧
    (Jour_grandTotal rows).total = totalColSum (Jour_data rows) ∧
    (Jour_totalRow rows).total = 2 * totalColSum (Jour_data rows) := by
  have hshape : ∀ r ∈ Jour_data rows, ∃ f : String → ℕ,
      r.cells = (entityCols rows).map fun c => (c, f c) :=
    fun r hr => ⟨count2 rows r.journalist, jour_data_shape rows r hr⟩
  have hgt_cell : ∀ c ∈ entityCols rows,
      cellVal (Jour_grandTotal rows) c = colSum (Jour_data rows) c :=
    fun c hc => cellVal_map (colSum (Jour_data rows)) "GrandTotal" "" (entityCols rows) c hc
  have hgt_total : (Jour_grandTotal rows).total = totalColSum (Jour_data rows) := by
    rw [Jour_grandTotal, JRow.total]
    simp only [List.map_map]
    have := sum_colSum_eq_totalColSum (entityCols rows) (Jour_data rows) hshape
    simpa using this
  have hshape2 : ∀ r ∈ Jour_data rows ++ [Jour_grandTotal rows], ∃ f : String → ℕ,
      r.cells = (entityCols rows).map fun c => (c, f c) := by
    intro r hr
    rcases List.mem_append.mp hr with hr | hr
    · exact hshape r hr
    · have : r = Jour_grandTotal rows := by simpa using hr
      subst this
      exact ⟨colSum (Jour_data rows), rfl⟩
  have htot_split : totalColSum (Jour_data rows ++ [Jour_grandTotal rows]) =
      2 * totalColSum (Jour_data rows) := by
    simp only [totalColSum, List.map_append, List.sum_append]
    simp [hgt_total, totalColSum]
    omega
  refine ⟨hgt_cell e he, ?_, hgt_total, ?_⟩
  · have h1 : cellVal (Jour_totalRow rows) e =
        colSum (Jour_data rows ++ [Jour_grandTotal rows]) e :=
      cellVal_map (colSum (Jour_data rows ++ [Jour_grandTotal rows])) "Total" ""
        (entityCols rows) e he
    rw [h1, colSum_append]
    have h2 : colSum [Jour_grandTotal rows] e = colSum (Jour_data rows) e := by
      simp [colSum, hgt_cell e he]
    rw [h2]
    omega
  · rw [Jour_totalRow, JRow.total]
    simp only [List.map_map]
    have := sum_colSum_eq_totalColSum (entityCols rows)
      (Jour_data rows ++ [Jour_grandTotal rows]) hshape2
    rw [htot_split] at this
    simpa using this

theorem jour_total_row_amended_witness :
    "Client-A" ∈ entityCols [Row.mk "J1" "Client-A" "P1"] ∧
    (cellVal (Jour_grandTotal [Row.mk "J1" "Client-A" "P1"]) "Client-A" =
      colSum (Jour_data [Row.mk "J1" "Client-A" "P1"]) "Client-A" ∧
    cellVal (Jour_totalRow [Row.mk "J1" "Client-A" "P1"]) "Client-A" =
      2 * colSum (Jour_data [Row.mk "J1" "Client-A" "P1"]) "Client-A" ∧
    (Jour_grandTotal [Row.mk "J1" "Client-A" "P1"]).total =
      totalColSum (Jour_data [Row.mk "J1" "Client-A" "P1"]) ∧
    (Jour_totalRow [Row.mk "J1" "Client-A" "P1"]).total =
      2 * totalColSum (Jour_data [Row.mk "J1" "Client-A" "P1"])) :=
  ⟨by decide, jour_total_row_amended [Row.mk "J1" "Client-A" "P1"] "Client-A" (by decide)⟩

theorem roundHalfEven_abs_le (q : ℚ) : |(roundHalfEven q : ℚ) - q| ≤ 1/2 := by
  unfold roundHalfEven
  have h0 : (⌊q⌋ : ℚ) ≤ q := Int.floor_le q
  have h1 : q < (⌊q⌋ : ℚ) + 1 := Int.lt_floor_add_one q
  by_cases hlt : q - (⌊q⌋ : ℚ) < 1/2
  · simp only [hlt, if_true]
    rw [abs_le]
    constructor <;> linarith
  · by_cases hgt : (1:ℚ)/2 < q - (⌊q⌋ : ℚ)
    · simp only [hlt, hgt, if_false, if_true]
      push_cast
      rw [abs_le]
      constructor <;> linarith
    · by_cases hev : ⌊q⌋ % 2 = 0
      · simp only [hlt, hgt, hev, if_false, if_true]
        rw [abs_le]
        constructor <;> linarith
      · simp only [hlt, hgt, hev, if_false]
        push_cast
        rw [abs_le]
        constructor <;> linarith

theorem round2_abs_le (q : ℚ) : |round2 q - q| ≤ 1/200 := by
  have h := roundHalfEven_abs_le (q * 100)
  have heq : round2 q - q = ((roundHalfEven (q * 100) : ℚ) - q * 100) / 100 := by
    unfold round2
    ring
  rw [heq, abs_div]
  have h100 : |(100:ℚ)| = 100 := by norm_num
  rw [h100, div_le_iff₀ (by norm_num : (0:ℚ) < 100)]
  linarith

theorem mem_sovColumns (rows : List Row) (h : rows ≠ []) :
    "News Count" ∈ sovColumns rows := by
  cases rows with
  | nil => exact absurd rfl h
  | cons r l =>
    rw [sovColumns]
    exact List.mem_dedup.mpr (by simp)

theorem sum_round2_close (l : List String) (f : String → ℚ) :
    |(l.map fun e => round2 (f e)).sum - (l.map f).sum| ≤ (l.length : ℚ) * (1/200) := by
  induction l with
  | nil => simp
  | cons a l ih =>
    simp only [List.map_cons, List.sum_cons, List.length_cons]
    have h1 := round2_abs_le (f a)
    calc |round2 (f a) + (l.map fun e => round2 (f e)).sum - (f a + (l.map f).sum)|
        = |(round2 (f a) - f a) + ((l.map fun e => round2 (f e)).sum - (l.map f).sum)| := by
          ring_nf
      _ ≤ |round2 (f a) - f a| + |(l.map fun e => round2 (f e)).sum - (l.map f).sum| :=
          abs_add _ _
      _ ≤ 1/200 + (l.length : ℚ) * (1/200) := add_le_add h1 ih
      _ = ((l.length : ℚ) + 1) * (1/200) := by ring
      _ = (((l.length + 1 : ℕ)) : ℚ) * (1/200) := by push_cast; ring

theorem sum_pct_exact (ents : List String) (c : String → ℕ) (s : ℕ)
    (hs : (ents.map c).sum = s) (hne : s ≠ 0) :
    (ents.map fun e => (c e : ℚ) / s * 100).sum = 100 := by
  have h1 : ∀ e ∈ ents, (c e : ℚ) / s * 100 = (c e : ℚ) * (100 / s) := by
    intro e _
    ring
  rw [List.map_congr_left h1, List.sum_map_mul_right]
  have h2 : (ents.map fun e => ((c e : ℕ) : ℚ)).sum = (s : ℚ) := by
    rw [← hs, Nat.cast_list_sum, List.map_map]
    rfl
  rw [h2]
  field_simp

theorem sum_newsCount (rows : List Row) :
    (((rows.map Row.entity).dedup).map (newsCount rows)).sum = rows.length := by
  have h := List.sum_map_count_dedup_eq_length (rows.map Row.entity)
  simpa [newsCount] using h

/-- Claim C2: for a non-empty input table, every non-Total row of the
Entity SOV table carries the percentage round2(count / sum of non-Total
counts * 100), the Total row carries exactly 100, and the non-Total
percentages sum to 100 up to 0.01 per non-Total row. -/
theorem entity_sov_pct (rows : List Row) (h : rows ≠ []) :
    ∃ body totalRow, Entity_SOV rows = .ok (body, totalRow) ∧
      (∀ r ∈ body, r.pct = round2 ((r.cnt : ℚ) / ((body.map SOVRow.cnt).sum : ℚ) * 100)) ∧
      totalRow.pct = 100 ∧
      |(body.map SOVRow.pct).sum - 100| ≤ (body.length : ℚ) * (1/100) := by
  have hmem := mem_sovColumns rows h
  refine ⟨((rows.map Row.entity).dedup).map fun e =>
      ⟨e, newsCount rows e, round2 ((newsCount rows e : ℚ) /
        ((((rows.map Row.entity).dedup).map (newsCount rows)).sum : ℚ) * 100)⟩,
    ⟨"Total", rows.length, 100⟩, ?_, ?_, rfl, ?_⟩
  · rw [Entity_SOV, if_pos hmem]
  · have hcnt : (((rows.map Row.entity).dedup).map fun e =>
        (⟨e, newsCount rows e, round2 ((newsCount rows e : ℚ) /
          ((((rows.map Row.entity).dedup).map (newsCount rows)).sum : ℚ) * 100)⟩ :
            SOVRow)).map SOVRow.cnt = ((rows.map Row.entity).dedup).map (newsCount rows) := by
      rw [List.map_map]
      rfl
    intro r hr
    rw [hcnt]
    obtain ⟨e, _, rfl⟩ := List.mem_map.mp hr
    rfl
  · have hcnt : (((rows.map Row.entity).dedup).map fun e =>
        (⟨e, newsCount rows e, round2 ((newsCount rows e : ℚ) /
          ((((rows.map Row.entity).dedup).map (newsCount rows)).sum : ℚ) * 100)⟩ :
            SOVRow)).map SOVRow.pct =
        ((rows.map Row.entity).dedup).map fun e => round2 ((newsCount rows e : ℚ) /
          ((((rows.map Row.entity).dedup).map (newsCount rows)).sum : ℚ) * 100) := by
      rw [List.map_map]
      rfl
    rw [hcnt, List.length_map]
    have hne : (((rows.map Row.entity).dedup).map (newsCount rows)).sum ≠ 0 := by
      rw [sum_newsCount rows]
      have := List.length_pos.mpr h
      omega
    have hexact := sum_pct_exact ((rows.map Row.entity).dedup) (newsCount rows)
      ((((rows.map Row.entity).dedup).map (newsCount rows)).sum) rfl hne
    have hclose := sum_round2_close ((rows.map Row.entity).dedup)
      (fun e => (newsCount rows e : ℚ) /
        ((((rows.map Row.entity).dedup).map (newsCount rows)).sum : ℚ) * 100)
    rw [hexact] at hclose
    calc |(((rows.map Row.entity).dedup).map fun e => round2 ((newsCount rows e : ℚ) /
          ((((rows.map Row.entity).dedup).map (newsCount rows)).sum : ℚ) * 100)).sum - 100|
        ≤ (((rows.map Row.entity).dedup).length : ℚ) * (1/200) := hclose
      _ ≤ (((rows.map Row.entity).dedup).length : ℚ) * (1/100) := by
          apply mul_le_mul_of_nonneg_left (by norm_num)
          positivity

theorem entity_sov_pct_witness :
    ([Row.mk "J" "A" "P", Row.mk "J" "B" "P", Row.mk "J" "B" "P2"] ≠ ([] : List Row)) ∧
    ∃ body totalRow,
      Entity_SOV [Row.mk "J" "A" "P", Row.mk "J" "B" "P", Row.mk "J" "B" "P2"] =
        .ok (body, totalRow) ∧
      (∀ r ∈ body, r.pct = round2 ((r.cnt : ℚ) / ((body.map SOVRow.cnt).sum : ℚ) * 100)) ∧
      totalRow.pct = 100 ∧
      |(body.map SOVRow.pct).sum - 100| ≤ (body.length : ℚ) * (1/100) :=
  ⟨by decide, entity_sov_pct [Row.mk "J" "A" "P", Row.mk "J" "B" "P", Row.mk "J" "B" "P2"]
    (by decide)⟩

end Table
